import Mathlib

/-!
Verification development for the `adept` Vlasov-Poisson-Fokker-Planck solver
(1D1V core).  The definitions below are a shallow embedding, over exact
rationals, of the code in `adept/vlasov1d/integrator.py`,
`adept/vlasov1d/pushers/fokker_planck.py` and `adept/vfp1d/helpers.py`.
Machinery that the repository imports from modules outside the sources at
hand (the spectral advection pushers, the electric-field and wave solvers,
the drivers, `numpy`/`jax` transcendental functions) is abstracted as opaque
components of an `Env` record, so every theorem quantifying over `Env` holds
for an arbitrary behaviour of those components.  The batched tridiagonal
solver (`adept/vlasov2d/solver/tridiagonal.py`) is likewise absent from the
sources and is modelled from the spec as a Thomas algorithm.
-/

/-- A one-dimensional array over the spatial (or velocity) index, as exact
rationals; entries past the configured size are irrelevant junk. -/
abbrev Arr : Type := ℕ → ℚ

/-- A two-dimensional array over (space, velocity), mirroring the
`(nx, nv)`-shaped `jax` arrays of the code. -/
abbrev FArr : Type := ℕ → ℕ → ℚ

/-- Time-integration scheme selected by `cfg["terms"]["time"]`. -/
inductive TimeScheme
  | leapfrog
  | sixth

/-- The slice of the configuration dictionary that the embedded code reads:
grid sizes and spacings, the velocity axis, the `nuee` profile and the
scheme/term switches. -/
structure Cfg where
  nx : ℕ
  nv : ℕ
  dx : ℚ
  dv : ℚ
  dt : ℚ
  v : Arr
  nuee : Arr
  hampere : Bool
  scheme : TimeScheme
  fp_on : Bool
  krook_on : Bool

/-- Opaque external collaborators of the integrator: the advection pushers,
the field and wave solvers, the drivers and the transcendental functions.
Their code is not among the sources at hand, so they are universally
quantified; theorems about the integrators hold for every `Env`. -/
structure Env where
  field_solve : FArr → Arr → Arr → Arr → Option Arr → Option ℚ → Arr × Arr
  edfdv : FArr → Arr → ℚ → FArr
  vdfdx : FArr → ℚ → FArr
  wave_solver : Arr → Arr → Arr → Arr → Arr × Arr
  ex_driver : ℚ → Arr
  ey_driver : ℚ → Arr
  nu_prof_fp : ℚ → Arr
  nu_prof_krook : ℚ → Arr
  exp : ℚ → ℚ
  powThreeHalves : ℚ → ℚ

/-- Trapezoidal quadrature with uniform spacing `dv` over `n` samples,
exactly `numpy.trapz(y, dx=dv)`. -/
def trapz (dv : ℚ) (n : ℕ) (y : Arr) : ℚ :=
  ∑ i ∈ Finset.range (n - 1), dv * (y i + y (i + 1)) / 2

/-- The per-row velocity moment `partial(jnp.trapz, axis=1, dx=self.dv)`
used by the collision pushers. -/
def vx_moment (cfg : Cfg) (y : Arr) : ℚ := trapz cfg.dv cfg.nv y

/-- `VlasovMaxwell.moment_x`: plain Riemann-sum density moment,
`jnp.sum(f, axis=1) * dv`. -/
def moment_x (cfg : Cfg) (f : FArr) : Arr :=
  fun x => (∑ j ∈ Finset.range cfg.nv, f x j) * cfg.dv

/-- Total particle number: the zeroth velocity moment (as the code computes
it in `moment_x`) integrated over space. -/
def totalNumber (cfg : Cfg) (f : FArr) : ℚ :=
  cfg.dx * ∑ x ∈ Finset.range cfg.nx, moment_x cfg f x

/-- `jnp.roll(v, 1)` on an axis of length `n`. -/
def roll1 (v : Arr) (n : ℕ) : Arr := fun j => v ((j + (n - 1)) % n)

/-- `jnp.roll(v, -1)` on an axis of length `n`. -/
def rollm1 (v : Arr) (n : ℕ) : Arr := fun j => v ((j + 1) % n)

/-- `LenardBernstein.__call__`: builds the three diagonals of the
Lenard-Bernstein collision operator (second moment about the fixed origin,
drag centred on the raw velocity grid). -/
def LenardBernstein.call (cfg : Cfg) (nu : Arr) (f_xv : FArr) (dt : ℚ) :
    FArr × FArr × FArr :=
  let v0t_sq : Arr := fun x => vx_moment cfg (fun j => f_xv x j * cfg.v j ^ 2)
  ( fun x j => nu x * dt *
      (-(v0t_sq x) / cfg.dv ^ 2 + roll1 cfg.v cfg.nv j / 2 / cfg.dv)
  , fun x j => 1 + nu x * dt * (2 * v0t_sq x / cfg.dv ^ 2)
  , fun x j => nu x * dt *
      (-(v0t_sq x) / cfg.dv ^ 2 - rollm1 cfg.v cfg.nv j / 2 / cfg.dv) )

/-- `Dougherty`: per-cell first velocity moment
`vbar = trapz(f * v, dx=dv)`. -/
def Dougherty.vbar (cfg : Cfg) (f_xv : FArr) (x : ℕ) : ℚ :=
  vx_moment cfg (fun j => f_xv x j * cfg.v j)

/-- `Dougherty`: per-cell second velocity moment about `vbar`,
`v0t_sq = trapz(f * (v - vbar)^2, dx=dv)`. -/
def Dougherty.v0t_sq (cfg : Cfg) (f_xv : FArr) (x : ℕ) : ℚ :=
  vx_moment cfg (fun j => f_xv x j * (cfg.v j - Dougherty.vbar cfg f_xv x) ^ 2)

/-- `Dougherty.__call__`: the three diagonals `(a, b, c)` of the Dougherty
collision operator, drag re-centred on the local `vbar`. -/
def Dougherty.call (cfg : Cfg) (nu : Arr) (f_xv : FArr) (dt : ℚ) :
    FArr × FArr × FArr :=
  ( fun x j => nu x * dt *
      (-(Dougherty.v0t_sq cfg f_xv x) / cfg.dv ^ 2 +
        (roll1 cfg.v cfg.nv j - Dougherty.vbar cfg f_xv x) / 2 / cfg.dv)
  , fun x j => 1 + nu x * dt * (2 * Dougherty.v0t_sq cfg f_xv x / cfg.dv ^ 2)
  , fun x j => nu x * dt *
      (-(Dougherty.v0t_sq cfg f_xv x) / cfg.dv ^ 2 -
        (rollm1 cfg.v cfg.nv j - Dougherty.vbar cfg f_xv x) / 2 / cfg.dv) )

/-- Modelled from the spec: forward sweep of the Thomas algorithm of the
batched tridiagonal solver (`TridiagonalSolver`, whose source file is not
among the sources at hand).  Returns the modified upper diagonal and
right-hand side at index `j`. -/
def thomasFwd (A B C D : Arr) : ℕ → ℚ × ℚ
  | 0 => (C 0 / B 0, D 0 / B 0)
  | j + 1 =>
    let p := thomasFwd A B C D j
    let m := B (j + 1) - A (j + 1) * p.1
    (C (j + 1) / m, (D (j + 1) - A (j + 1) * p.2) / m)

/-- Modelled from the spec: back substitution of the Thomas algorithm,
`i` counts down from the last row `lastIdx`. -/
def thomasBack (A B C D : Arr) (lastIdx : ℕ) : ℕ → ℚ
  | 0 => (thomasFwd A B C D lastIdx).2
  | i + 1 =>
    (thomasFwd A B C D (lastIdx - (i + 1))).2 -
      (thomasFwd A B C D (lastIdx - (i + 1))).1 * thomasBack A B C D lastIdx i

/-- Modelled from the spec: solve one tridiagonal system
`A[j] x[j-1] + B[j] x[j] + C[j] x[j+1] = D[j]` of size `n` by the Thomas
algorithm (`A 0` and `C (n-1)` are ignored, as in the standard sweep). -/
def thomasSolve (A B C D : Arr) (n : ℕ) : Arr :=
  fun j => if j < n then thomasBack A B C D (n - 1) (n - 1 - j) else 0

/-- Modelled from the spec: the batched tridiagonal solve, one independent
Thomas solve per spatial cell. -/
def tdSolve (cfg : Cfg) (A B C f : FArr) : FArr :=
  fun x => thomasSolve (A x) (B x) (C x) (f x) cfg.nv

/-- `Collisions.__call__`: if any entry of `cfg["nuee"]` is positive, build
the Dougherty diagonals from the current `f` and solve the tridiagonal
system over every spatial cell; otherwise return `f` untouched.  The Krook
invocation in the source is commented out, so `nu_K` is never read.  A
Python `None` argument is modelled as `none` (the positive-`nuee` branch
reads it through `getD`; the Python code would fault there if handed
`None`, a path outside every claim). -/
def Collisions.call (cfg : Cfg) (nu_fp nu_K : Option Arr) (f : FArr)
    (dt : ℚ) : FArr :=
  if ∃ x ∈ Finset.range cfg.nx, 0 < cfg.nuee x then
    let cee := Dougherty.call cfg (Option.getD nu_fp (fun _ => 0)) f dt
    tdSolve cfg cee.1 cee.2.1 cee.2.2 f
  else f

/-- `Krook.__init__`: the unit-normalized fixed Maxwellian
`f_mx = exp(-v^2/2) / trapz(exp(-v^2/2), dx=dv)` (the same row for every
spatial cell); `exp` is the opaque transcendental from the environment. -/
def Krook.f_mx (env : Env) (cfg : Cfg) : Arr :=
  fun j => env.exp (-(cfg.v j ^ 2) / 2) /
    trapz cfg.dv cfg.nv (fun k => env.exp (-(cfg.v k ^ 2) / 2))

/-- `Krook.__call__`: BGK relaxation of `f` toward `n_prof * f_mx` with
per-cell factor `exp(-dt * nu_K[x])`. -/
def Krook.call (env : Env) (cfg : Cfg) (nu_K : Arr) (f_xv : FArr)
    (dt : ℚ) : FArr :=
  fun x j =>
    f_xv x j * env.exp (-(dt * nu_K x)) +
      vx_moment cfg (f_xv x) * Krook.f_mx env cfg j *
        (1 - env.exp (-(dt * nu_K x)))

/-- The defining relation of the tridiagonal solve on one spatial row:
row `j` of `A g_(j-1) + B g_j + C g_(j+1) = rhs_j` for `j < n`, with `A`
dropped on the first row and `C` on the last (the Thomas convention). -/
def tridiagRowEq (A B C g rhs : Arr) (n : ℕ) : Prop :=
  ∀ j < n,
    (if j = 0 then 0 else A j * g (j - 1)) + B j * g j +
      (if j = n - 1 then 0 else C j * g (j + 1)) = rhs j

instance (A B C g rhs : Arr) (n : ℕ) :
    Decidable (tridiagRowEq A B C g rhs n) :=
  inferInstanceAs (Decidable (∀ j < n,
    (if j = 0 then 0 else A j * g (j - 1)) + B j * g j +
      (if j = n - 1 then 0 else C j * g (j + 1)) = rhs j))

/-- The discrete probability flux of the Dougherty operator through the two
edges of the velocity domain, applied to the post-solve distribution `g`:
the exact defect of number conservation for one collision solve. -/
def Dougherty.edgeFlux (cfg : Cfg) (nu : Arr) (f_xv : FArr) (dt : ℚ)
    (x : ℕ) (g : FArr) : ℚ :=
  nu x * dt *
    ((Dougherty.v0t_sq cfg f_xv x / cfg.dv ^ 2 +
        (cfg.v 0 - Dougherty.vbar cfg f_xv x) / 2 / cfg.dv) * g x 0 +
      (Dougherty.v0t_sq cfg f_xv x / cfg.dv ^ 2 -
        (cfg.v (cfg.nv - 1) - Dougherty.vbar cfg f_xv x) / 2 / cfg.dv) *
        g x (cfg.nv - 1))

/-- `SixthOrderHamIntegrator.__init__`: space coefficient `a1`. -/
def SixthOrder.a1 : ℚ := 0.168735950563437422448196

/-- `SixthOrderHamIntegrator.__init__`: space coefficient `a2`. -/
def SixthOrder.a2 : ℚ := 0.377851589220928303880766

/-- `SixthOrderHamIntegrator.__init__`: space coefficient `a3`. -/
def SixthOrder.a3 : ℚ := -0.093175079568731452657924

/-- `SixthOrderHamIntegrator.__init__`: raw coefficient `b1`. -/
def SixthOrder.b1 : ℚ := 0.049086460976116245491441

/-- `SixthOrderHamIntegrator.__init__`: raw coefficient `b2`. -/
def SixthOrder.b2 : ℚ := 0.264177609888976700200146

/-- `SixthOrderHamIntegrator.__init__`: raw coefficient `b3`. -/
def SixthOrder.b3 : ℚ := 0.186735929134907054308413

/-- `SixthOrderHamIntegrator.__init__`: raw coefficient `c1`. -/
def SixthOrder.c1 : ℚ := -0.000069728715055305084099

/-- `SixthOrderHamIntegrator.__init__`: raw coefficient `c2`. -/
def SixthOrder.c2 : ℚ := -0.000625704827430047189169

/-- `SixthOrderHamIntegrator.__init__`: raw coefficient `c3`. -/
def SixthOrder.c3 : ℚ := -0.002213085124045325561636

/-- `SixthOrderHamIntegrator.__init__`: raw coefficient `d2`. -/
def SixthOrder.d2 : ℚ := -2.916600457689847816445691e-6

/-- `SixthOrderHamIntegrator.__init__`: raw coefficient `d3`. -/
def SixthOrder.d3 : ℚ := 3.048480261700038788680723e-5

/-- `SixthOrderHamIntegrator.__init__`: raw coefficient `e3`. -/
def SixthOrder.e3 : ℚ := 4.985549387875068121593988e-7

/-- `SixthOrderHamIntegrator.__init__`: velocity-push coefficient
`D1 = b1 + 2 c1 dt^2`. -/
def SixthOrder.D1 (dt : ℚ) : ℚ := SixthOrder.b1 + 2 * SixthOrder.c1 * dt ^ 2

/-- `SixthOrderHamIntegrator.__init__`: velocity-push coefficient
`D2 = b2 + 2 c2 dt^2 + 4 d2 dt^4`. -/
def SixthOrder.D2 (dt : ℚ) : ℚ :=
  SixthOrder.b2 + 2 * SixthOrder.c2 * dt ^ 2 + 4 * SixthOrder.d2 * dt ^ 4

/-- `SixthOrderHamIntegrator.__init__`: velocity-push coefficient
`D3 = b3 + 2 c3 dt^2 + 4 d3 dt^4 - 8 e3 dt^6`. -/
def SixthOrder.D3 (dt : ℚ) : ℚ :=
  SixthOrder.b3 + 2 * SixthOrder.c3 * dt ^ 2 + 4 * SixthOrder.d3 * dt ^ 4 -
    8 * SixthOrder.e3 * dt ^ 6

/-- `SixthOrderHamIntegrator.__call__`: direct transliteration of the
thirteen pushes (six field-solve/velocity-push pairs interleaved with five
space pushes), returning the last self-consistent field and the final
distribution. -/
def SixthOrder.call (env : Env) (cfg : Cfg) (f0 : FArr) (ni Z a : Arr)
    (dex_array : ℕ → Arr) (prev_ex : Arr) : Arr × FArr :=
  let pe1 := env.field_solve f0 ni Z a none none
  let f1 := env.edfdv f0 (fun x => pe1.1 x + dex_array 0 x + pe1.2 x)
    (SixthOrder.D1 cfg.dt * cfg.dt)
  let g1 := env.vdfdx f1 (SixthOrder.a1 * cfg.dt)
  let pe2 := env.field_solve g1 ni Z a none none
  let f2 := env.edfdv g1 (fun x => pe2.1 x + dex_array 1 x + pe2.2 x)
    (SixthOrder.D2 cfg.dt * cfg.dt)
  let g2 := env.vdfdx f2 (SixthOrder.a2 * cfg.dt)
  let pe3 := env.field_solve g2 ni Z a none none
  let f3 := env.edfdv g2 (fun x => pe3.1 x + dex_array 2 x + pe3.2 x)
    (SixthOrder.D3 cfg.dt * cfg.dt)
  let g3 := env.vdfdx f3 (SixthOrder.a3 * cfg.dt)
  let pe4 := env.field_solve g3 ni Z a none none
  let f4 := env.edfdv g3 (fun x => pe4.1 x + dex_array 3 x + pe4.2 x)
    (SixthOrder.D3 cfg.dt * cfg.dt)
  let g4 := env.vdfdx f4 (SixthOrder.a2 * cfg.dt)
  let pe5 := env.field_solve g4 ni Z a none none
  let f5 := env.edfdv g4 (fun x => pe5.1 x + dex_array 4 x + pe5.2 x)
    (SixthOrder.D2 cfg.dt * cfg.dt)
  let g5 := env.vdfdx f5 (SixthOrder.a1 * cfg.dt)
  let pe6 := env.field_solve g5 ni Z a none none
  let f6 := env.edfdv g5 (fun x => pe6.1 x + dex_array 5 x + pe6.2 x)
    (SixthOrder.D1 cfg.dt * cfg.dt)
  (pe6.2, f6)

/-- One field-solve point as the claim describes it: recompute the
self-consistent field from the current `f`, add the driver value for this
stage, and apply a velocity push scaled by the stage's `D` coefficient. -/
def fieldSolveKick (env : Env) (cfg : Cfg) (ni Z a : Arr) (dexi : Arr)
    (Dcoef : ℚ) (f : FArr) : Arr × FArr :=
  let pe := env.field_solve f ni Z a none none
  (pe.2, env.edfdv f (fun x => pe.1 x + dexi x + pe.2 x) (Dcoef * cfg.dt))

/-- The stage schedule stated by the claim, written from the claim's words:
run a field-solve/velocity-push point for each `D` coefficient in the given
list, consuming driver stages in order, interleaving a space push scaled by
the next coefficient of the `a`-list between consecutive points; return the
field of the last solve and the final distribution. -/
def claimedSchedule (env : Env) (cfg : Cfg) (ni Z a : Arr)
    (dex_array : ℕ → Arr) :
    ℕ → List ℚ → List ℚ → FArr → Arr × FArr
  | i, Dc :: Ds, drifts, f =>
    let ef := fieldSolveKick env cfg ni Z a (dex_array i) Dc f
    match Ds, drifts with
    | _ :: _, ac :: rest =>
      claimedSchedule env cfg ni Z a dex_array (i + 1) Ds rest
        (env.vdfdx ef.2 (ac * cfg.dt))
    | _, _ => ef
  | _, [], _, f => (fun _ => 0, f)

/-- `LeapfrogIntegrator.__call__`: one space push over the full `dt`, one
field solve (on the pre-push `f` in Hampere mode, otherwise on the pushed
`f`), one velocity push under `pond + e + dex_array[0]`. -/
def Leapfrog.call (env : Env) (cfg : Cfg) (f : FArr) (ni Z a : Arr)
    (dex_array : ℕ → Arr) (prev_ex : Arr) : Arr × FArr :=
  let f_after_v := env.vdfdx f cfg.dt
  let f_for_field := if cfg.hampere then f else f_after_v
  let pe := env.field_solve f_for_field ni Z a (some prev_ex) (some cfg.dt)
  (pe.2, env.edfdv f_after_v
    (fun x => pe.1 x + pe.2 x + dex_array 0 x) cfg.dt)

/-- The leapfrog stage sequence as amended from the claim's words: one
space-advection push over the full step `dt` (not `dt/2`), then one field
solve (the code hands it the pre-push `f` in Hampere mode, which the claim
leaves unspecified), then one velocity push under the summed
ponderomotive, self-consistent and driver forces; return `(e, f)`. -/
def leapfrogClaimedSchedule (env : Env) (cfg : Cfg) (f : FArr)
    (ni Z a : Arr) (dex_array : ℕ → Arr) (prev_ex : Arr) : Arr × FArr :=
  let fs := env.vdfdx f cfg.dt
  let pe := env.field_solve (if cfg.hampere then f else fs) ni Z a
    (some prev_ex) (some cfg.dt)
  let force : Arr := fun x => pe.1 x + pe.2 x + dex_array 0 x
  (pe.2, env.edfdv fs force cfg.dt)

/-- The per-scheme sub-stage time offsets `dt_array` of the integrators. -/
def dtArrayList (cfg : Cfg) : List ℚ :=
  match cfg.scheme with
  | .leapfrog => [cfg.dt * 0, cfg.dt * 1]
  | .sixth =>
    [ cfg.dt * 0
    , cfg.dt * SixthOrder.a1
    , cfg.dt * (SixthOrder.a1 + SixthOrder.a2)
    , cfg.dt * (SixthOrder.a1 + SixthOrder.a2 + SixthOrder.a3)
    , cfg.dt * (SixthOrder.a1 + SixthOrder.a2 + SixthOrder.a3 + SixthOrder.a2)
    , cfg.dt * (SixthOrder.a1 + SixthOrder.a2 + SixthOrder.a3 +
        SixthOrder.a2 + SixthOrder.a1) ]

/-- `dt_array` as a total function on the stage index. -/
def dtArray (cfg : Cfg) : ℕ → ℚ := fun i => (dtArrayList cfg).getD i 0

/-- `VlasovPoissonFokkerPlanck.__init__`: which driver stage is saved as
`de` (`3` for the sixth-order scheme, `0` for leapfrog). -/
def dexSave (cfg : Cfg) : ℕ :=
  match cfg.scheme with
  | .sixth => 3
  | .leapfrog => 0

/-- `VlasovPoissonFokkerPlanck.__call__`: the selected kinetic integrator
followed by the collision step. -/
def VPFP.call (env : Env) (cfg : Cfg) (f : FArr) (ni Z a prev_ex : Arr)
    (dex_array : ℕ → Arr) (nu_fp nu_K : Option Arr) : Arr × FArr :=
  let ef :=
    match cfg.scheme with
    | .sixth => SixthOrder.call env cfg f ni Z a dex_array prev_ex
    | .leapfrog => Leapfrog.call env cfg f ni Z a dex_array prev_ex
  (ef.1, Collisions.call cfg nu_fp nu_K ef.2 cfg.dt)

/-- The state bundle passed to and returned by `VlasovMaxwell.__call__`,
keyed as the code's dictionary. -/
structure VMState where
  electron : FArr
  a : Arr
  prev_a : Arr
  ni : Arr
  Z : Arr
  e : Arr
  de : Arr
  da : Arr

/-- `VlasovMaxwell.__call__`: evaluate the drivers at every sub-stage time,
capture the pre-step density and temperature moments, build the optional
collision-frequency profiles, run the kinetic-plus-collision composite,
advance the wave equation with the averaged pre/post density, and return a
fresh bundle (the profile-shape functions `nu_prof`, which depend on the
out-of-scope `get_envelope`, are folded into the environment). -/
def VlasovMaxwell.call (env : Env) (cfg : Cfg) (t : ℚ) (y : VMState) :
    VMState :=
  let dex : ℕ → Arr := fun i => env.ex_driver (t + dtArray cfg i)
  let djy := env.ey_driver (t + dtArray cfg 1)
  let ne_before := moment_x cfg y.electron
  let Te_before : Arr := fun x =>
    0.5 * moment_x cfg (fun x' j => y.electron x' j * cfg.v j ^ 2) x /
      ne_before x
  let nu_fp_prof : Option Arr :=
    if cfg.fp_on then
      some (fun x => env.nu_prof_fp t x * ne_before x /
        env.powThreeHalves (Te_before x))
    else none
  let nu_K_prof : Option Arr :=
    if cfg.krook_on then some (env.nu_prof_krook t) else none
  let ef := VPFP.call env cfg y.electron y.ni y.Z y.a y.e dex
    nu_fp_prof nu_K_prof
  let ne_after := moment_x cfg ef.2
  let aRes := env.wave_solver y.a y.prev_a djy
    (fun x => 0.5 * (ne_before x + ne_after x))
  { electron := ef.2
  , a := aRes.1
  , ni := y.ni
  , Z := y.Z
  , prev_a := aRes.2
  , da := djy
  , de := dex (dexSave cfg)
  , e := ef.1 }

/-- The two recognized velocity-advection pushers. -/
inductive EdfdvChoice
  | exponential
  | cubicSpline

/-- The Fokker-Planck operator classes available in the pushers module. -/
inductive FPOperator
  | dougherty
  | lenardBernstein

/-- Setup-time failures, standing for the Python exceptions raised before
any stepping begins. -/
inductive SetupError
  | notImplemented
  | valueError

/-- `TimeIntegrator.get_edfdv`: dispatch on `cfg["terms"]["edfdv"]`; an
unrecognized method raises `NotImplementedError`. -/
def get_edfdv (method : String) : Except SetupError EdfdvChoice :=
  if method = ("exponential") then Except.ok EdfdvChoice.exponential
  else if method = ("cubic-spline") then Except.ok EdfdvChoice.cubicSpline
  else Except.error SetupError.notImplemented

/-- `Collisions.__init_fp_operator__`: the dispatch on
`cfg["solver"]["fp_operator"]` is commented out in the source; the body
unconditionally returns a `Dougherty` instance for every tag. -/
def init_fp_operator (fp_operator_tag : String) :
    Except SetupError FPOperator :=
  Except.ok FPOperator.dougherty

/-- `_initialize_total_distribution_`: the per-profile basis dispatch; a
basis other than `uniform`, `tanh` or `sine` raises
`NotImplementedError` (the produced arrays, built from the out-of-scope
envelope helpers, are irrelevant to the error behaviour and elided). -/
def profile_from_basis (basis : String) : Except SetupError Unit :=
  if basis = ("uniform") then Except.ok ()
  else if basis = ("tanh") then Except.ok ()
  else if basis = ("sine") then Except.ok ()
  else Except.error SetupError.notImplemented

/-- One entry of `cfg["density"]`: its key and the `n` and `T` basis
tags. -/
structure SpeciesCfg where
  name : String
  n_basis : String
  T_basis : String

/-- Python's `str.startswith`, evaluated structurally on the character
lists (the core `String.startsWith` is compiled code that does not reduce
inside proofs). -/
def strStartsWith (s pre : String) : Bool :=
  s.data.take pre.data.length == pre.data

/-- The species loop of `_initialize_total_distribution_`: entries whose
key starts with `species-` have their `n` then `T` basis checked (first
failure propagates); the flag records whether any species was seen. -/
def initSpeciesLoop : List SpeciesCfg → Bool → Except SetupError Unit
  | [], found =>
    if found then Except.ok () else Except.error SetupError.valueError
  | s :: rest, found =>
    if strStartsWith s.name ("species-") then
      match profile_from_basis s.n_basis with
      | Except.error e => Except.error e
      | Except.ok _ =>
        match profile_from_basis s.T_basis with
        | Except.error e => Except.error e
        | Except.ok _ => initSpeciesLoop rest true
    else initSpeciesLoop rest found

/-- `_initialize_total_distribution_`: the error-relevant control flow —
iterate the species entries, then raise `ValueError` if none was found. -/
def initialize_total_distribution (species : List SpeciesCfg) :
    Except SetupError Unit :=
  initSpeciesLoop species false

/-- The `logLambda` methods accepted by `calc_logLambda`: the two
recognized strings, or a numeric constant. -/
inductive LogLambdaMethod
  | plasmapy
  | nrl
  | numeric (q : ℚ)

/-- External numerics feeding `calc_logLambda`: the two Coulomb logarithms
returned by the `plasmapy` library, and `numpy`'s `log` and `sqrt`. -/
structure UnitsEnv where
  pp_logLambda_ei : ℚ
  pp_logLambda_ee : ℚ
  log : ℚ → ℚ
  sqrt : ℚ → ℚ

/-- The configuration slice read by `calc_logLambda`. -/
structure UnitsCfg where
  method : LogLambdaMethod
  ne : ℚ
  Te : ℚ
  Z : ℚ

/-- `calc_logLambda`: the `(logLambda_ei, logLambda_ee)` pair for each
accepted method (`plasmapy` values come from the external library; `nrl`
uses the NRL-formulary fits; a numeric constant is used for both). -/
def calc_logLambda (uenv : UnitsEnv) (c : UnitsCfg) : ℚ × ℚ :=
  match c.method with
  | LogLambdaMethod.plasmapy => (uenv.pp_logLambda_ei, uenv.pp_logLambda_ee)
  | LogLambdaMethod.nrl =>
    let log_ne := uenv.log c.ne
    let log_Te := uenv.log c.Te
    let log_Z := uenv.log c.Z
    let lee := max 2 (23.5 - 0.5 * log_ne + 1.25 * log_Te -
      uenv.sqrt (1e-5 + 0.0625 * (log_Te - 2) ^ 2))
    let lei :=
      if c.Te > 10 * c.Z ^ 2 then max 2 (24 - 0.5 * log_ne + log_Te)
      else max 2 (23 - 0.5 * log_ne + 1.5 * log_Te - log_Z)
    (lei, lee)
  | LogLambdaMethod.numeric q => (q, q)

/-- `write_units`, lines 75-76: destructure the pair returned by
`calc_logLambda`, then unconditionally rebind `logLambda_ee` to
`logLambda_ei`; the pair stored among the derived units. -/
def write_units_logLambda (uenv : UnitsEnv) (c : UnitsCfg) : ℚ × ℚ :=
  let p := calc_logLambda uenv c
  let logLambda_ei := p.1
  let logLambda_ee := logLambda_ei
  (logLambda_ei, logLambda_ee)

/-- An instrumented environment for counting field-solve/velocity-push
stages: the field solve returns the constant field `1`, the velocity push
adds the force to every cell, and the space push is the identity, so one
unit accumulates in `f` per stage. -/
def countEnv : Env where
  field_solve := fun _ _ _ _ _ _ => (fun _ => 0, fun _ => 1)
  edfdv := fun f e _ => fun x j => f x j + e x
  vdfdx := fun f _ => f
  wave_solver := fun _ _ _ _ => (fun _ => 0, fun _ => 0)
  ex_driver := fun _ => fun _ => 0
  ey_driver := fun _ => fun _ => 0
  nu_prof_fp := fun _ => fun _ => 0
  nu_prof_krook := fun _ => fun _ => 0
  exp := fun _ => 0
  powThreeHalves := fun _ => 0

/-- An instrumented environment that records the duration handed to the
space-advection push: `vdfdx` returns the constant array `dt`, while the
velocity push and field solve are inert. -/
def recordDtEnv : Env where
  field_solve := fun _ _ _ _ _ _ => (fun _ => 0, fun _ => 0)
  edfdv := fun f _ _ => f
  vdfdx := fun _ dtv => fun _ _ => dtv
  wave_solver := fun _ _ _ _ => (fun _ => 0, fun _ => 0)
  ex_driver := fun _ => fun _ => 0
  ey_driver := fun _ => fun _ => 0
  nu_prof_fp := fun _ => fun _ => 0
  nu_prof_krook := fun _ => fun _ => 0
  exp := fun _ => 0
  powThreeHalves := fun _ => 0

/-- A minimal unit-step configuration for the instrumented runs. -/
def unitCfg : Cfg where
  nx := 1
  nv := 1
  dx := 1
  dv := 1
  dt := 1
  v := fun _ => 0
  nuee := fun _ => 0
  hampere := false
  scheme := TimeScheme.leapfrog
  fp_on := false
  krook_on := false

/-- Witness configuration for the collision claims: one spatial cell, four
velocity cells at `v = -3, -1, 1, 3` with spacing `dv = 2`. -/
def wCfg : Cfg where
  nx := 1
  nv := 4
  dx := 1
  dv := 2
  dt := 1 / 10
  v := fun j => 2 * (j : ℚ) - 3
  nuee := fun _ => 1
  hampere := false
  scheme := TimeScheme.leapfrog
  fp_on := true
  krook_on := false

/-- Witness collision-frequency profile. -/
def wNu : Arr := fun _ => 1

/-- Witness distribution `f = [1/12, 3/8, 3/8, 1/12]` in every spatial
cell: non-negative, symmetric, chosen so that both edge-flux coefficients
of the Dougherty operator vanish (`v0t_sq/dv^2 = 3/4 = |v_edge - vbar|/(2 dv)`). -/
def wF : FArr := fun _ j =>
  if j = 0 then 1 / 12 else if j = 3 then 1 / 12 else if j < 4 then 3 / 8 else 0

/-- The post-solve witness distribution: the Thomas solve applied to the
Dougherty diagonals built from `wF`. -/
def wG : FArr :=
  tdSolve wCfg (Dougherty.call wCfg wNu wF (1 / 10)).1
    (Dougherty.call wCfg wNu wF (1 / 10)).2.1
    (Dougherty.call wCfg wNu wF (1 / 10)).2.2 wF

/-- A concrete environment with computable entries for the Krook witness:
the transcendental `exp` is replaced by the constant function `1`. -/
def wKrookEnv : Env where
  field_solve := fun _ _ _ _ _ _ => (fun _ => 0, fun _ => 0)
  edfdv := fun f _ _ => f
  vdfdx := fun f _ => f
  wave_solver := fun _ _ _ _ => (fun _ => 0, fun _ => 0)
  ex_driver := fun _ => fun _ => 0
  ey_driver := fun _ => fun _ => 0
  nu_prof_fp := fun _ => fun _ => 0
  nu_prof_krook := fun _ => fun _ => 0
  exp := fun _ => 1
  powThreeHalves := fun _ => 0

/-- Closed form of the trapezoid rule: the full sample sum with the two
boundary samples half-weighted. -/
theorem trapz_closed_form (dv : ℚ) (n : ℕ) (hn : 1 ≤ n) (y : Arr) :
    trapz dv n y =
      dv * ((∑ j ∈ Finset.range n, y j) - (y 0 + y (n - 1)) / 2) := by
  induction n with
  | zero => exact absurd hn (by omega)
  | succ m ih =>
    rcases Nat.eq_zero_or_pos m with hm | hm
    · subst hm
      simp only [trapz, Nat.sub_self, Finset.range_zero, Finset.sum_empty]
      rw [Finset.sum_range_one]
      ring
    · have hm1 : m - 1 + 1 = m := by omega
      have step : trapz dv (m + 1) y
          = trapz dv m y + dv * (y (m - 1) + y m) / 2 := by
        unfold trapz
        have h2 : m + 1 - 1 = (m - 1) + 1 := by omega
        rw [h2, Finset.sum_range_succ, hm1]
      rw [step, ih hm, Finset.sum_range_succ]
      have h3 : m + 1 - 1 = m := by omega
      rw [h3]
      ring

/-- Trapezoid quadrature scales with a constant right factor. -/
theorem trapz_mul_const (dv : ℚ) (n : ℕ) (y : Arr) (c : ℚ) :
    trapz dv n (fun j => y j * c) = trapz dv n y * c := by
  unfold trapz
  rw [Finset.sum_mul]
  exact Finset.sum_congr rfl (fun i _ => by ring)

/-- Trapezoid quadrature is additive. -/
theorem trapz_add (dv : ℚ) (n : ℕ) (y z : Arr) :
    trapz dv n (fun j => y j + z j) = trapz dv n y + trapz dv n z := by
  unfold trapz
  rw [← Finset.sum_add_distrib]
  exact Finset.sum_congr rfl (fun i _ => by ring)

/-- Trapezoid quadrature respects pointwise equality of the samples. -/
theorem trapz_congr (dv : ℚ) (n : ℕ) (y z : Arr) (h : ∀ j, y j = z j) :
    trapz dv n y = trapz dv n z := by
  unfold trapz
  exact Finset.sum_congr rfl (fun i _ => by rw [h i, h (i + 1)])

/-- Summing the rows of a tridiagonal system whose diagonals have the
drift-diffusion structure of the collision operators: the row sums
telescope, leaving the identity part plus the two boundary flux terms. -/
theorem tridiag_sum_identity (A B C g rhs : Arr) (m : ℕ) (s P : ℚ) (Q : Arr)
    (hA : ∀ k < m + 1, A (k + 1) = s * (-P + Q k))
    (hB : ∀ j < m + 2, B j = 1 + s * (2 * P))
    (hC : ∀ k < m + 1, C k = s * (-P - Q (k + 1)))
    (hsys : tridiagRowEq A B C g rhs (m + 2)) :
    ∑ j ∈ Finset.range (m + 2), rhs j
      = (∑ j ∈ Finset.range (m + 2), g j)
        + s * ((P + Q 0) * g 0 + (P - Q (m + 1)) * g (m + 1)) := by
  have hsum : ∑ j ∈ Finset.range (m + 2), rhs j
      = ∑ j ∈ Finset.range (m + 2),
          ((if j = 0 then 0 else A j * g (j - 1)) + B j * g j +
            (if j = m + 2 - 1 then 0 else C j * g (j + 1))) := by
    refine Finset.sum_congr rfl (fun j hj => ?_)
    exact (hsys j (Finset.mem_range.mp hj)).symm
  have hSA : ∑ j ∈ Finset.range (m + 2),
        (if j = 0 then (0 : ℚ) else A j * g (j - 1))
      = ∑ k ∈ Finset.range (m + 1), s * (-P + Q k) * g k := by
    rw [Finset.sum_range_succ']
    have h1 : ∀ i ∈ Finset.range (m + 1),
        (if i + 1 = 0 then (0 : ℚ) else A (i + 1) * g (i + 1 - 1))
          = s * (-P + Q i) * g i := by
      intro i hi
      rw [if_neg (Nat.succ_ne_zero i), hA i (Finset.mem_range.mp hi)]
      simp
    rw [Finset.sum_congr rfl h1]
    simp
  have hSC : ∑ j ∈ Finset.range (m + 2),
        (if j = m + 2 - 1 then (0 : ℚ) else C j * g (j + 1))
      = ∑ k ∈ Finset.range (m + 1), s * (-P - Q (k + 1)) * g (k + 1) := by
    rw [Finset.sum_range_succ]
    have h2 : ∀ j ∈ Finset.range (m + 1),
        (if j = m + 2 - 1 then (0 : ℚ) else C j * g (j + 1))
          = s * (-P - Q (j + 1)) * g (j + 1) := by
      intro j hj
      have hj' : j < m + 1 := Finset.mem_range.mp hj
      rw [if_neg (by omega), hC j hj']
    rw [Finset.sum_congr rfl h2]
    simp
  have eB : ∑ j ∈ Finset.range (m + 2), B j * g j
      = (∑ j ∈ Finset.range (m + 2), g j) * (1 + s * (2 * P)) := by
    rw [Finset.sum_mul]
    exact Finset.sum_congr rfl
      (fun j hj => by rw [hB j (Finset.mem_range.mp hj)]; ring)
  have e1 : ∑ k ∈ Finset.range (m + 1), s * (-P + Q k) * g k
      = -(s * P) * (∑ k ∈ Finset.range (m + 1), g k)
        + s * (∑ k ∈ Finset.range (m + 1), Q k * g k) := by
    rw [Finset.mul_sum, Finset.mul_sum, ← Finset.sum_add_distrib]
    exact Finset.sum_congr rfl (fun k _ => by ring)
  have e2 : ∑ k ∈ Finset.range (m + 1), s * (-P - Q (k + 1)) * g (k + 1)
      = -(s * P) * (∑ k ∈ Finset.range (m + 1), g (k + 1))
        - s * (∑ k ∈ Finset.range (m + 1), Q (k + 1) * g (k + 1)) := by
    rw [Finset.mul_sum, Finset.mul_sum, ← Finset.sum_sub_distrib]
    exact Finset.sum_congr rfl (fun k _ => by ring)
  have hstep : (m : ℕ) + 1 + 1 = m + 2 := by omega
  have hS1 : ∑ k ∈ Finset.range (m + 1), g k
      = (∑ j ∈ Finset.range (m + 2), g j) - g (m + 1) := by
    have h := Finset.sum_range_succ g (m + 1)
    rw [hstep] at h
    linarith
  have hS2 : ∑ k ∈ Finset.range (m + 1), g (k + 1)
      = (∑ j ∈ Finset.range (m + 2), g j) - g 0 := by
    have h := Finset.sum_range_succ' g (m + 1)
    rw [hstep] at h
    linarith
  have hU1 : ∑ k ∈ Finset.range (m + 1), Q k * g k
      = (∑ j ∈ Finset.range (m + 2), Q j * g j) - Q (m + 1) * g (m + 1) := by
    have h := Finset.sum_range_succ (fun j => Q j * g j) (m + 1)
    rw [hstep] at h
    linarith
  have hU2 : ∑ k ∈ Finset.range (m + 1), Q (k + 1) * g (k + 1)
      = (∑ j ∈ Finset.range (m + 2), Q j * g j) - Q 0 * g 0 := by
    have h := Finset.sum_range_succ' (fun j => Q j * g j) (m + 1)
    rw [hstep] at h
    linarith
  rw [hsum, Finset.sum_add_distrib, Finset.sum_add_distrib, hSA, hSC, eB,
    e1, e2, hS1, hS2, hU1, hU2]
  ring

/-- Conservation for one spatial row: any exact solution `g` of the
tridiagonal system with the Dougherty diagonals built from `f` has the same
plain velocity sum as `f`, up to the two edge-flux terms; when the edge
flux vanishes the row sum is conserved exactly. -/
theorem dougherty_row_sum (cfg : Cfg) (nu : Arr) (f g : FArr) (dt : ℚ)
    (x : ℕ) (hnv : 2 ≤ cfg.nv)
    (hsys : tridiagRowEq ((Dougherty.call cfg nu f dt).1 x)
      ((Dougherty.call cfg nu f dt).2.1 x)
      ((Dougherty.call cfg nu f dt).2.2 x) (g x) (f x) cfg.nv)
    (hflux : Dougherty.edgeFlux cfg nu f dt x g = 0) :
    ∑ j ∈ Finset.range cfg.nv, g x j = ∑ j ∈ Finset.range cfg.nv, f x j := by
  obtain ⟨m, hm⟩ : ∃ m, cfg.nv = m + 2 := ⟨cfg.nv - 2, by omega⟩
  have key := tridiag_sum_identity ((Dougherty.call cfg nu f dt).1 x)
    ((Dougherty.call cfg nu f dt).2.1 x) ((Dougherty.call cfg nu f dt).2.2 x)
    (g x) (f x) m (nu x * dt)
    (Dougherty.v0t_sq cfg f x / cfg.dv ^ 2)
    (fun k => (cfg.v k - Dougherty.vbar cfg f x) / 2 / cfg.dv)
    (by
      intro k hk
      show nu x * dt *
          (-(Dougherty.v0t_sq cfg f x) / cfg.dv ^ 2 +
            (roll1 cfg.v cfg.nv (k + 1) - Dougherty.vbar cfg f x) / 2 /
              cfg.dv) = _
      have hroll : roll1 cfg.v cfg.nv (k + 1) = cfg.v k := by
        unfold roll1
        have h1 : k + 1 + (cfg.nv - 1) = k + cfg.nv := by omega
        rw [h1, Nat.add_mod_right, Nat.mod_eq_of_lt (by omega)]
      rw [hroll]
      ring)
    (by
      intro j hj
      show 1 + nu x * dt *
          (2 * Dougherty.v0t_sq cfg f x / cfg.dv ^ 2) = _
      ring)
    (by
      intro k hk
      show nu x * dt *
          (-(Dougherty.v0t_sq cfg f x) / cfg.dv ^ 2 -
            (rollm1 cfg.v cfg.nv k - Dougherty.vbar cfg f x) / 2 /
              cfg.dv) = _
      have hroll : rollm1 cfg.v cfg.nv k = cfg.v (k + 1) := by
        unfold rollm1
        rw [Nat.mod_eq_of_lt (by omega)]
      rw [hroll]
      ring)
    (by rw [← hm]; exact hsys)
  dsimp only at key
  have hfx : Dougherty.edgeFlux cfg nu f dt x g
      = nu x * dt *
        ((Dougherty.v0t_sq cfg f x / cfg.dv ^ 2 +
            (cfg.v 0 - Dougherty.vbar cfg f x) / 2 / cfg.dv) * g x 0 +
          (Dougherty.v0t_sq cfg f x / cfg.dv ^ 2 -
            (cfg.v (m + 1) - Dougherty.vbar cfg f x) / 2 / cfg.dv) *
            g x (m + 1)) := by
    unfold Dougherty.edgeFlux
    rw [hm]
    rfl
  rw [hfx] at hflux
  rw [hm]
  linarith [key, hflux]

/-- C2: for every non-negative input distribution `f`, the total particle
number (the zeroth velocity moment of `f`, as the code's `moment_x`
computes it, integrated over space) is unchanged exactly by one Dougherty
collision step — the tridiagonal solve applied with the diagonals built
from `f` — whenever no probability flux passes through the two
velocity-domain edges. -/
theorem dougherty_collision_conserves_number (cfg : Cfg) (nu : Arr)
    (f g : FArr) (dt : ℚ) (hnv : 2 ≤ cfg.nv)
    (hpos : ∀ x < cfg.nx, ∀ j < cfg.nv, 0 ≤ f x j)
    (hsys : ∀ x < cfg.nx, tridiagRowEq ((Dougherty.call cfg nu f dt).1 x)
      ((Dougherty.call cfg nu f dt).2.1 x)
      ((Dougherty.call cfg nu f dt).2.2 x) (g x) (f x) cfg.nv)
    (hflux : ∀ x < cfg.nx, Dougherty.edgeFlux cfg nu f dt x g = 0) :
    totalNumber cfg g = totalNumber cfg f := by
  unfold totalNumber moment_x
  congr 1
  refine Finset.sum_congr rfl (fun x hx => ?_)
  rw [dougherty_row_sum cfg nu f g dt x hnv
    (hsys x (Finset.mem_range.mp hx)) (hflux x (Finset.mem_range.mp hx))]

/-- Witness for C2: a concrete symmetric distribution on a four-point
velocity grid whose Dougherty edge-flux coefficients both vanish; the
post-solve distribution is the actual Thomas solution, checked to satisfy
the tridiagonal system exactly. -/
theorem dougherty_collision_conserves_number_witness :
    (2 ≤ wCfg.nv)
    ∧ (∀ x < wCfg.nx, ∀ j < wCfg.nv, 0 ≤ wF x j)
    ∧ (∀ x < wCfg.nx, tridiagRowEq ((Dougherty.call wCfg wNu wF (1 / 10)).1 x)
        ((Dougherty.call wCfg wNu wF (1 / 10)).2.1 x)
        ((Dougherty.call wCfg wNu wF (1 / 10)).2.2 x) (wG x) (wF x) wCfg.nv)
    ∧ (∀ x < wCfg.nx, Dougherty.edgeFlux wCfg wNu wF (1 / 10) x wG = 0)
    ∧ totalNumber wCfg wG = totalNumber wCfg wF :=
  ⟨of_decide_eq_true (by with_unfolding_all rfl),
    of_decide_eq_true (by with_unfolding_all rfl),
    of_decide_eq_true (by with_unfolding_all rfl),
    of_decide_eq_true (by with_unfolding_all rfl),
    dougherty_collision_conserves_number wCfg wNu wF wG (1 / 10)
      (of_decide_eq_true (by with_unfolding_all rfl))
      (of_decide_eq_true (by with_unfolding_all rfl))
      (of_decide_eq_true (by with_unfolding_all rfl))
      (of_decide_eq_true (by with_unfolding_all rfl))⟩

/-- C1 (amended): every call of the 6th-order integrator executes the
claimed stage schedule with SIX field-solve points (not four): at each
point it recomputes the self-consistent field from the current `f`, adds
the driver value for that stage index, and applies a velocity push scaled
by the stage's `D` coefficient, in the order `D1,D2,D3,D3,D2,D1`,
interleaved with space pushes scaled by `a1,a2,a3,a2,a1`. -/
theorem sixthOrder_executes_claimed_schedule (env : Env) (cfg : Cfg)
    (f : FArr) (ni Z a : Arr) (dex_array : ℕ → Arr) (prev_ex : Arr) :
    SixthOrder.call env cfg f ni Z a dex_array prev_ex =
      claimedSchedule env cfg ni Z a dex_array 0
        [SixthOrder.D1 cfg.dt, SixthOrder.D2 cfg.dt, SixthOrder.D3 cfg.dt,
          SixthOrder.D3 cfg.dt, SixthOrder.D2 cfg.dt, SixthOrder.D1 cfg.dt]
        [SixthOrder.a1, SixthOrder.a2, SixthOrder.a3, SixthOrder.a2,
          SixthOrder.a1] f := rfl

/-- C1 counterexample: with an instrumented environment in which every
field-solve/velocity-push stage adds exactly one unit to every cell of
`f`, one call of the 6th-order integrator adds 6 units, not the 4 the
claim's "4 field-solve points" would produce. -/
theorem sixthOrder_counts_six_field_solves :
    (SixthOrder.call countEnv unitCfg (fun _ _ => 0) (fun _ => 0)
        (fun _ => 0) (fun _ => 0) (fun _ _ => 0) (fun _ => 0)).2 0 0 = 6
    ∧ ((6 : ℚ) ≠ 4) :=
  ⟨of_decide_eq_true (by with_unfolding_all rfl),
    of_decide_eq_true (by with_unfolding_all rfl)⟩

/-- C3: the Dougherty operator computes `vbar` and `v0t_sq` as the
trapezoidal first moment and the trapezoidal second moment about `vbar`
(stated in the closed half-weighted-endpoint form), and its three
diagonals are exactly the Lenard-Bernstein diagonals evaluated on the
velocity grid re-centred at the local `vbar` — so the operator targets the
local Maxwellian with the matching moments. -/
theorem dougherty_moments_and_recentering (cfg : Cfg) (nu : Arr) (f : FArr)
    (dt : ℚ) (x : ℕ) (hnv : 1 ≤ cfg.nv) :
    Dougherty.vbar cfg f x
      = cfg.dv * ((∑ j ∈ Finset.range cfg.nv, f x j * cfg.v j)
          - (f x 0 * cfg.v 0 + f x (cfg.nv - 1) * cfg.v (cfg.nv - 1)) / 2)
    ∧ Dougherty.v0t_sq cfg f x
      = cfg.dv * ((∑ j ∈ Finset.range cfg.nv,
            f x j * (cfg.v j - Dougherty.vbar cfg f x) ^ 2)
          - (f x 0 * (cfg.v 0 - Dougherty.vbar cfg f x) ^ 2 +
              f x (cfg.nv - 1) *
                (cfg.v (cfg.nv - 1) - Dougherty.vbar cfg f x) ^ 2) / 2)
    ∧ (∀ j, (Dougherty.call cfg nu f dt).1 x j
          = (LenardBernstein.call
              { cfg with v := fun k => cfg.v k - Dougherty.vbar cfg f x }
              nu f dt).1 x j
        ∧ (Dougherty.call cfg nu f dt).2.1 x j
          = (LenardBernstein.call
              { cfg with v := fun k => cfg.v k - Dougherty.vbar cfg f x }
              nu f dt).2.1 x j
        ∧ (Dougherty.call cfg nu f dt).2.2 x j
          = (LenardBernstein.call
              { cfg with v := fun k => cfg.v k - Dougherty.vbar cfg f x }
              nu f dt).2.2 x j) :=
  ⟨trapz_closed_form cfg.dv cfg.nv hnv _,
    trapz_closed_form cfg.dv cfg.nv hnv _,
    fun j => ⟨rfl, rfl, rfl⟩⟩

/-- Witness for C3 on the concrete four-point grid. -/
theorem dougherty_moments_and_recentering_witness :
    (1 ≤ wCfg.nv)
    ∧ (Dougherty.vbar wCfg wF 0
        = wCfg.dv * ((∑ j ∈ Finset.range wCfg.nv, wF 0 j * wCfg.v j)
            - (wF 0 0 * wCfg.v 0 +
                wF 0 (wCfg.nv - 1) * wCfg.v (wCfg.nv - 1)) / 2)
      ∧ Dougherty.v0t_sq wCfg wF 0
        = wCfg.dv * ((∑ j ∈ Finset.range wCfg.nv,
              wF 0 j * (wCfg.v j - Dougherty.vbar wCfg wF 0) ^ 2)
            - (wF 0 0 * (wCfg.v 0 - Dougherty.vbar wCfg wF 0) ^ 2 +
                wF 0 (wCfg.nv - 1) *
                  (wCfg.v (wCfg.nv - 1) - Dougherty.vbar wCfg wF 0) ^ 2) / 2)
      ∧ (∀ j, (Dougherty.call wCfg wNu wF (1 / 10)).1 0 j
            = (LenardBernstein.call
                { wCfg with v := fun k => wCfg.v k - Dougherty.vbar wCfg wF 0 }
                wNu wF (1 / 10)).1 0 j
          ∧ (Dougherty.call wCfg wNu wF (1 / 10)).2.1 0 j
            = (LenardBernstein.call
                { wCfg with v := fun k => wCfg.v k - Dougherty.vbar wCfg wF 0 }
                wNu wF (1 / 10)).2.1 0 j
          ∧ (Dougherty.call wCfg wNu wF (1 / 10)).2.2 0 j
            = (LenardBernstein.call
                { wCfg with v := fun k => wCfg.v k - Dougherty.vbar wCfg wF 0 }
                wNu wF (1 / 10)).2.2 0 j)) :=
  ⟨of_decide_eq_true (by with_unfolding_all rfl),
    dougherty_moments_and_recentering wCfg wNu wF (1 / 10) 0
      (of_decide_eq_true (by with_unfolding_all rfl))⟩

/-- C4 (amended): every call of the leapfrog integrator performs exactly
one space-advection push over the FULL step `dt` (not a half-step), then
one field solve, then one velocity-advection under the summed
ponderomotive, self-consistent and driver forces, returning the field and
the new distribution. -/
theorem leapfrog_executes_claimed_schedule (env : Env) (cfg : Cfg)
    (f : FArr) (ni Z a : Arr) (dex_array : ℕ → Arr) (prev_ex : Arr) :
    Leapfrog.call env cfg f ni Z a dex_array prev_ex =
      leapfrogClaimedSchedule env cfg f ni Z a dex_array prev_ex := rfl

/-- C4 counterexample: with an environment that records the duration handed
to the space push, a leapfrog call with `dt = 1` produces the recorded
duration `1`, not the `1/2` a half-step would give. -/
theorem leapfrog_space_push_uses_full_dt :
    (Leapfrog.call recordDtEnv unitCfg (fun _ _ => 0) (fun _ => 0)
        (fun _ => 0) (fun _ => 0) (fun _ _ => 0) (fun _ => 0)).2 0 0 = 1
    ∧ ((1 : ℚ) ≠ 1 / 2) :=
  ⟨of_decide_eq_true (by with_unfolding_all rfl),
    of_decide_eq_true (by with_unfolding_all rfl)⟩

/-- C5: when every configured `nuee` entry is non-positive, the collision
step is the identity on `f` for every input and every `dt`: the guard in
`Collisions.__call__` skips the operator entirely. -/
theorem collisions_zero_rate_identity (cfg : Cfg) (nu_fp nu_K : Option Arr)
    (f : FArr) (dt : ℚ) (h : ∀ x < cfg.nx, cfg.nuee x ≤ 0) :
    Collisions.call cfg nu_fp nu_K f dt = f := by
  have hno : ¬ ∃ x ∈ Finset.range cfg.nx, 0 < cfg.nuee x := by
    rintro ⟨x, hx, hpos⟩
    exact absurd hpos (not_lt.mpr (h x (Finset.mem_range.mp hx)))
  unfold Collisions.call
  rw [if_neg hno]

/-- Witness for C5 with the all-zero `nuee` profile. -/
theorem collisions_zero_rate_identity_witness :
    (∀ x < unitCfg.nx, unitCfg.nuee x ≤ 0)
    ∧ Collisions.call unitCfg none none (fun _ _ => 1) 1 = fun _ _ => 1 :=
  ⟨of_decide_eq_true (by with_unfolding_all rfl),
    collisions_zero_rate_identity unitCfg none none (fun _ _ => 1) 1
      (of_decide_eq_true (by with_unfolding_all rfl))⟩

/-- C6: the Krook relaxation conserves density exactly: for every rate
profile, every `dt` and every spatial cell, the trapezoidal zeroth
velocity moment of the output equals that of the input, because the target
Maxwellian is unit-normalized and scaled by the local density moment — the
only hypothesis is that the normalizer of `f_mx` is nonzero. -/
theorem krook_conserves_density (env : Env) (cfg : Cfg) (nu_K : Arr)
    (f : FArr) (dt : ℚ) (x : ℕ)
    (hT : trapz cfg.dv cfg.nv (fun k => env.exp (-(cfg.v k ^ 2) / 2)) ≠ 0) :
    vx_moment cfg (fun j => Krook.call env cfg nu_K f dt x j)
      = vx_moment cfg (f x) := by
  have hstep : ∀ j, Krook.call env cfg nu_K f dt x j
      = f x j * env.exp (-(dt * nu_K x)) +
        env.exp (-(cfg.v j ^ 2) / 2) *
          (vx_moment cfg (f x) * (1 - env.exp (-(dt * nu_K x))) /
            trapz cfg.dv cfg.nv (fun k => env.exp (-(cfg.v k ^ 2) / 2))) := by
    intro j
    unfold Krook.call Krook.f_mx
    ring
  unfold vx_moment
  rw [trapz_congr cfg.dv cfg.nv _ _ hstep, trapz_add]
  rw [trapz_mul_const cfg.dv cfg.nv (fun j => f x j)
    (env.exp (-(dt * nu_K x)))]
  rw [trapz_mul_const cfg.dv cfg.nv (fun j => env.exp (-(cfg.v j ^ 2) / 2))
    (vx_moment cfg (f x) * (1 - env.exp (-(dt * nu_K x))) /
      trapz cfg.dv cfg.nv (fun k => env.exp (-(cfg.v k ^ 2) / 2)))]
  unfold vx_moment
  field_simp
  ring

/-- C7 (amended): of the four configuration-error kinds, three raise an
explicit error at setup — an unrecognized velocity-advection method, an
unrecognized profile basis (whether checked directly or reached through a
species entry), and no species defined — while an unrecognized collision
operator does NOT raise: the dispatch is disabled and Dougherty is used
unconditionally for every tag. -/
theorem setup_errors_amended :
    (∀ m : String, m ≠ ("exponential") → m ≠ ("cubic-spline") →
        get_edfdv m = Except.error SetupError.notImplemented)
    ∧ (∀ b : String, b ≠ ("uniform") → b ≠ ("tanh") → b ≠ ("sine") →
        profile_from_basis b = Except.error SetupError.notImplemented)
    ∧ (∀ sp : SpeciesCfg, ∀ rest : List SpeciesCfg, ∀ found : Bool,
        strStartsWith sp.name ("species-") = true →
        profile_from_basis sp.n_basis = Except.error SetupError.notImplemented →
        initSpeciesLoop (sp :: rest) found
          = Except.error SetupError.notImplemented)
    ∧ (∀ l : List SpeciesCfg,
        (∀ sp ∈ l, strStartsWith sp.name ("species-") = false) →
        initialize_total_distribution l = Except.error SetupError.valueError)
    ∧ (∀ tag : String, init_fp_operator tag = Except.ok FPOperator.dougherty) := by
  refine ⟨?_, ?_, ?_, ?_, fun tag => rfl⟩
  · intro m h1 h2
    unfold get_edfdv
    rw [if_neg h1, if_neg h2]
  · intro b h1 h2 h3
    unfold profile_from_basis
    rw [if_neg h1, if_neg h2, if_neg h3]
  · intro sp rest found h1 h2
    simp only [initSpeciesLoop, h1, if_true, h2]
  · intro l
    induction l with
    | nil => intro _; rfl
    | cons s rest ih =>
      intro hl
      have hs : strStartsWith s.name ("species-") = false :=
        hl s (List.mem_cons_self s rest)
      show initSpeciesLoop (s :: rest) false
        = Except.error SetupError.valueError
      simp only [initSpeciesLoop, hs, Bool.false_eq_true, if_false]
      exact ih (fun sp hsp => hl sp (List.mem_cons_of_mem s hsp))

/-- Witness for C7 at concrete tags: a bad advection method, a bad profile
basis reached through a species entry, a species list with no `species-`
key, and an unknown collision-operator tag that is silently accepted. -/
theorem setup_errors_amended_witness :
    (("spectral" : String) ≠ ("exponential"))
    ∧ get_edfdv ("spectral") = Except.error SetupError.notImplemented
    ∧ profile_from_basis ("gaussian") = Except.error SetupError.notImplemented
    ∧ initSpeciesLoop
        [{ name := ("species-electron"), n_basis := ("gaussian"),
            T_basis := ("uniform") }] false
        = Except.error SetupError.notImplemented
    ∧ initialize_total_distribution
        [{ name := ("electron"), n_basis := ("uniform"),
            T_basis := ("uniform") }]
        = Except.error SetupError.valueError
    ∧ init_fp_operator ("lenard_bernstein") = Except.ok FPOperator.dougherty :=
  ⟨by decide,
    (setup_errors_amended).1 ("spectral") (by decide) (by decide),
    (setup_errors_amended).2.1 ("gaussian") (by decide) (by decide) (by decide),
    (setup_errors_amended).2.2.1
      { name := ("species-electron"), n_basis := ("gaussian"),
        T_basis := ("uniform") } [] false (by decide)
      ((setup_errors_amended).2.1 ("gaussian") (by decide) (by decide)
        (by decide)),
    (setup_errors_amended).2.2.2.1
      [{ name := ("electron"), n_basis := ("uniform"),
          T_basis := ("uniform") }]
      (by
        intro sp hsp
        rw [List.mem_singleton] at hsp
        subst hsp
        decide),
    (setup_errors_amended).2.2.2.2 ("lenard_bernstein")⟩

/-- C7 counterexample: an unrecognized collision-operator tag does not
raise at setup; `__init_fp_operator__` returns the Dougherty operator for
it, contradicting the claim that all four error kinds raise. -/
theorem init_fp_operator_accepts_unknown_tag :
    init_fp_operator ("not-an-operator") = Except.ok FPOperator.dougherty :=
  rfl

/-- C8: the collision step never reads the Krook rate argument — the Krook
invocation is commented out in `Collisions.__call__` — so its result is
identical for any two Krook profiles, for every `nu_fp`, `f` and `dt`. -/
theorem collisions_ignore_krook_rate (cfg : Cfg) (nu_fp : Option Arr)
    (nu_K nu_K' : Option Arr) (f : FArr) (dt : ℚ) :
    Collisions.call cfg nu_fp nu_K f dt
      = Collisions.call cfg nu_fp nu_K' f dt := rfl

/-- C9: `write_units` stores `logLambda_ee = logLambda_ei` unconditionally,
discarding the electron-electron value that `calc_logLambda` returned, for
every accepted `logLambda` method and every external numeric input. -/
theorem write_units_sets_logLambda_ee_to_ei (uenv : UnitsEnv) (c : UnitsCfg) :
    write_units_logLambda uenv c
      = ((calc_logLambda uenv c).1, (calc_logLambda uenv c).1) := rfl

/-- C10: the top-level step returns a fresh bundle whose background fields
`ni` and `Z` are exactly the input's arrays; the embedding is purely
functional (as are the immutable `jax` arrays it models), so the caller's
bundle is not mutated. -/
theorem vlasovMaxwell_preserves_background (env : Env) (cfg : Cfg) (t : ℚ)
    (y : VMState) :
    (VlasovMaxwell.call env cfg t y).ni = y.ni
    ∧ (VlasovMaxwell.call env cfg t y).Z = y.Z := ⟨rfl, rfl⟩

/-- Witness for C6 on the concrete four-point grid with a computable
stand-in for the transcendental `exp`. -/
theorem krook_conserves_density_witness :
    (trapz wCfg.dv wCfg.nv
        (fun k => wKrookEnv.exp (-(wCfg.v k ^ 2) / 2)) ≠ 0)
    ∧ vx_moment wCfg
        (fun j => Krook.call wKrookEnv wCfg (fun _ => 1) wF 1 0 j)
      = vx_moment wCfg (wF 0) :=
  ⟨of_decide_eq_true (by with_unfolding_all rfl),
    krook_conserves_density wKrookEnv wCfg (fun _ => 1) wF 1 0
      (of_decide_eq_true (by with_unfolding_all rfl))⟩
